import Mathlib

/-!
Verification development for the MetaDepot listing compiler and depot
synchronization engine.

The TypeScript source is embedded shallowly:
* byte buffers become `List Nat`;
* the external codecs (JSON serialization, SHA-256 hex digest, brotli and
  gzip/zopfli compression) are parameters bundled in `CodecEnv`, since the
  source delegates them to `JSON.stringify`, `node:crypto`, `node:zlib`
  and `node-zopfli`;
* filesystem effects become an explicit write log (`fsWrites`), read back
  with last-write-wins semantics (`fsRead`);
* depot uploads and WebDAV requests become explicit event traces;
* `process.exit` / thrown exceptions become an `Option` error component
  paired with the trace of events that happened before the abort.
-/

namespace MetaDepot

/-- Byte buffers (Node `Buffer`) as lists of bytes. -/
abbrev Bytes := List Nat

/-- External codecs used by `listing.ts`: `JSON.stringify` (for payloads of
type `J`), `crypto.createHash("sha256")...digest("hex")`, `zlib.brotliCompress`
and `zopfli.gzip`. They are parameters of the embedding. -/
structure CodecEnv (J : Type) where
  stringify : J → Bytes
  sha256hex : Bytes → String
  brotliCompress : Bytes → Bytes
  gzipCompress : Bytes → Bytes

/-- `FileDescriptor` from `listing.ts`: one physical artifact. -/
structure FileDescriptor where
  url : String
  size : Nat
  sha256 : String
deriving DecidableEq, Repr

/-- `ListingDescriptor` from `listing.ts`: the uncompressed artifact's
`FileDescriptor` fields are flattened in (`url`, `size`, `sha256`), plus one
`FileDescriptor` per compression scheme. -/
structure ListingDescriptor where
  name : String
  last_modified : String
  url : String
  size : Nat
  sha256 : String
  brotli : FileDescriptor
  gzip : FileDescriptor
deriving DecidableEq, Repr

/-- `path.join` for the simple relative segments used by the program. -/
def pathJoin (a b : String) : String := a ++ "/" ++ b

/-- `ListingsBuilder.buildUrl`: the identity on filenames. -/
def buildUrl (filename : String) : String := filename

/-- `ListingsBuilder.buildFileDescriptor`: url, byte length, and digest of
exactly the supplied buffer. -/
def buildFileDescriptor {J : Type} (env : CodecEnv J) (filename : String)
    (buffer : Bytes) : FileDescriptor :=
  { url := buildUrl filename
    size := buffer.length
    sha256 := env.sha256hex buffer }

/-- The body of `ListingsBuilder.writeListingAsync`: serialize the payload,
write `<name>.json`, then the brotli and gzip variants, and build the
`ListingDescriptor` from the bytes just written.  Returns the filesystem
write log (in write order) and the descriptor. -/
def writeListingArtifacts {J : Type} (env : CodecEnv J)
    (destinationFolder referenceDate name : String) (content : J) :
    List (String × Bytes) × ListingDescriptor :=
  let buffer := env.stringify content
  let jsonPath := pathJoin destinationFolder (name ++ ".json")
  let br := env.brotliCompress buffer
  let gz := env.gzipCompress buffer
  let fd := buildFileDescriptor env (name ++ ".json") buffer
  ([(jsonPath, buffer), (jsonPath ++ ".br", br), (jsonPath ++ ".gz", gz)],
   { name := name
     last_modified := referenceDate
     url := fd.url
     size := fd.size
     sha256 := fd.sha256
     brotli := buildFileDescriptor env (name ++ ".json.br") br
     gzip := buildFileDescriptor env (name ++ ".json.gz") gz })

/-- The state of a `ListingsBuilder`: destination folder, the run-wide
timestamp, the listing registry in insertion order, and the log of local
filesystem writes performed so far. -/
structure BuilderState where
  destinationFolder : String
  referenceDate : String
  listings : List (String × ListingDescriptor)
  fsWrites : List (String × Bytes)

/-- Read a path back from the write log; the last write wins
(`fs.readFile` after a sequence of `fs.writeFile`s). -/
def fsRead (writes : List (String × Bytes)) (p : String) : Option Bytes :=
  (writes.reverse.find? (fun e => e.1 = p)).map (fun e => e.2)

/-- First (and, by the registry's uniqueness guard, only) registry entry
under a name. -/
def listingLookup (reg : List (String × ListingDescriptor)) (n : String) :
    Option ListingDescriptor :=
  (reg.find? (fun e => e.1 = n)).map (fun e => e.2)

/-- `ListingsBuilder.writeListing`: throws if the name is already registered
(leaving the state untouched), otherwise performs the writes and records the
descriptor under the name. -/
def writeListing {J : Type} (env : CodecEnv J) (st : BuilderState)
    (name : String) (content : J) :
    BuilderState × Except String ListingDescriptor :=
  if st.listings.any (fun e => e.1 = name) then
    (st, Except.error ("Listing " ++ name ++ " has already been written."))
  else
    let r := writeListingArtifacts env st.destinationFolder st.referenceDate name content
    ({ st with
        listings := st.listings ++ [(name, r.2)]
        fsWrites := st.fsWrites ++ r.1 },
     Except.ok r.2)

/-- `ListingsBuilder.finish`: awaits all registered listings and materializes
one further listing named `index` whose payload is the list of every
registered descriptor (injected into the payload type by `toJ`).  Note that
the source calls `writeListingAsync` directly, so nothing is added to
`this.listings`. -/
def finish {J : Type} (env : CodecEnv J)
    (toJ : List ListingDescriptor → J) (st : BuilderState) : BuilderState :=
  let files := st.listings.map (fun e => e.2)
  let r := writeListingArtifacts env st.destinationFolder st.referenceDate
    "index" (toJ files)
  { st with fsWrites := st.fsWrites ++ r.1 }

/-! ### Path safety (`data.ts`) -/

/-- One character of the allow-list `[0-9a-zA-Z_. -]` from the regular
expression in `isSafePath`. -/
def isAllowedPathChar (c : Char) : Bool :=
  decide ('0' ≤ c ∧ c ≤ '9') || decide ('a' ≤ c ∧ c ≤ 'z')
    || decide ('A' ≤ c ∧ c ≤ 'Z') || c = '_' || c = '.' || c = ' ' || c = '-'

/-- `isSafePath` from `data.ts`: `!version.match(/[^0-9a-zA-Z_. -]/)`, i.e.
no character outside the allow-list occurs. -/
def isSafePath (s : String) : Bool := s.data.all isAllowedPathChar

/-- Spec-side reading of the allow-list: alphanumeric, underscore, period,
hyphen or space. -/
def AllowedChar (c : Char) : Prop :=
  ('0' ≤ c ∧ c ≤ '9') ∨ ('a' ≤ c ∧ c ≤ 'z') ∨ ('A' ≤ c ∧ c ≤ 'Z')
    ∨ c = '_' ∨ c = '.' ∨ c = '-' ∨ c = ' '

instance (c : Char) : Decidable (AllowedChar c) := by
  unfold AllowedChar; infer_instance

/-- One step of the `neoforgeVersions.map` loop in the main script: an unsafe
version string is skipped with a logged warning, a safe one registers the
listing `neoforge/<version>`. -/
inductive NeoForgeAction where
  | warnUnsafe (version : String)
  | register (name : String)
deriving DecidableEq, Repr

/-- The `neoforgeVersions.map` loop over the version strings. -/
def neoForgeActions : List String → List NeoForgeAction
  | [] => []
  | v :: rest =>
    (if isSafePath v then NeoForgeAction.register ("neoforge/" ++ v)
     else NeoForgeAction.warnUnsafe v) :: neoForgeActions rest

/-- The listing names registered by a run of the `neoforgeVersions.map`
loop. -/
def registeredNames (as : List NeoForgeAction) : List String :=
  as.filterMap (fun a =>
    match a with
    | NeoForgeAction.register n => some n
    | NeoForgeAction.warnUnsafe _ => none)

/-- The version strings warned about by a run of the loop. -/
def warnedVersions (as : List NeoForgeAction) : List String :=
  as.filterMap (fun a =>
    match a with
    | NeoForgeAction.register _ => none
    | NeoForgeAction.warnUnsafe v => some v)

/-! ### Sync engine (`ListingsBuilder.syncWithDepot`) -/

/-- A depot write performed by the sync engine (`depot.upload` keyed by the
relative depot path). -/
inductive SyncEvent where
  | upload (path : String) (content : Bytes)
deriving DecidableEq, Repr

/-- The relative depot path an event writes to. -/
def SyncEvent.path : SyncEvent → String
  | SyncEvent.upload p _ => p

/-- Abort causes of `syncWithDepot`: the `process.exit(1)` taken when the
remote index is missing without `--full-resync`, and a rejected
`fs.readFile` of a local artifact. -/
inductive SyncError where
  | exitFullResyncRequired
  | readFileFailed (path : String)
deriving DecidableEq, Repr

/-- The well-known index path. -/
def DEPOT_INDEX_PATH : String := ".depot-index.json"

/-- `Object.values(compressionExtensions)` in insertion order. -/
def compressionExtensionValues : List String := ["br", "gz"]

/-- `extensionsToUpload` in `syncWithDepot`. -/
def extensionsToUpload : List String :=
  "json" :: compressionExtensionValues.map (fun e => "json." ++ e)

/-- `Object.fromEntries(depotIndex.map(e => [e.name, e]))[n]`: with duplicate
names the later entry overwrites the earlier one, hence the lookup on the
reversed list. -/
def lookupExisting (depotIndex : List ListingDescriptor) (n : String) :
    Option ListingDescriptor :=
  depotIndex.reverse.find? (fun e => e.name = n)

/-- The skip condition of the sync loop: a baseline entry under the listing's
name exists and its `sha256` and `size` both match. -/
def shouldSkip (existing : Option ListingDescriptor) (l : ListingDescriptor) :
    Bool :=
  match existing with
  | some e => e.sha256 = l.sha256 ∧ e.size = l.size
  | none => false

/-- The inner `for (const extension of extensionsToUpload)` loop: read each
artifact back from the local destination folder and upload it under its
relative filename; a failed read aborts with the events so far. -/
def uploadArtifactsGo (readLocal : String → Option Bytes)
    (folder name : String) :
    List String → List SyncEvent × Option SyncError
  | [] => ([], none)
  | ext :: rest =>
    let filename := name ++ "." ++ ext
    match readLocal (pathJoin folder filename) with
    | none => ([], some (SyncError.readFileFailed (pathJoin folder filename)))
    | some content =>
      let r := uploadArtifactsGo readLocal folder name rest
      (SyncEvent.upload filename content :: r.1, r.2)

/-- The outer `for (const listing of listings)` loop of `syncWithDepot`. -/
def syncLoop (readLocal : String → Option Bytes) (folder : String)
    (existing : String → Option ListingDescriptor) :
    List ListingDescriptor → List SyncEvent × Option SyncError
  | [] => ([], none)
  | l :: rest =>
    if shouldSkip (existing l.name) l then
      syncLoop readLocal folder existing rest
    else
      let r := uploadArtifactsGo readLocal folder l.name extensionsToUpload
      match r.2 with
      | some e => (r.1, some e)
      | none =>
        let r2 := syncLoop readLocal folder existing rest
        (r.1 ++ r2.1, r2.2)

/-- `newDepotIndex.sort((a, b) => a.name.localeCompare(b.name))`: a stable
sort of the descriptors by name. -/
def sortByName (l : List ListingDescriptor) : List ListingDescriptor :=
  List.insertionSort (fun a b => a.name ≤ b.name) l

/-- The tail of `syncWithDepot` after the baseline has been determined:
run the loop, then serialize the new sorted index and upload it to the
well-known path. -/
def syncMain (stringifyIndex : List ListingDescriptor → Bytes)
    (readLocal : String → Option Bytes) (folder : String)
    (depotIndex : List ListingDescriptor) (listings : List ListingDescriptor) :
    List SyncEvent × Option SyncError :=
  let r := syncLoop readLocal folder (lookupExisting depotIndex) listings
  match r.2 with
  | some e => (r.1, some e)
  | none =>
    (r.1 ++ [SyncEvent.upload DEPOT_INDEX_PATH
        (stringifyIndex (sortByName listings))], none)

/-- `ListingsBuilder.syncWithDepot`, as a function of the fetched remote
index (`depot.getJSON(DEPOT_INDEX_PATH)` result), the resync flag, the
awaited registry descriptors, and the local destination folder contents.
Returns the trace of depot uploads and an optional abort. -/
def syncWithDepot (stringifyIndex : List ListingDescriptor → Bytes)
    (readLocal : String → Option Bytes) (folder : String)
    (depotIndex : Option (List ListingDescriptor)) (fullResync : Bool)
    (listings : List ListingDescriptor) :
    List SyncEvent × Option SyncError :=
  match depotIndex with
  | none =>
    if fullResync then syncMain stringifyIndex readLocal folder [] listings
    else ([], some SyncError.exitFullResyncRequired)
  | some idx => syncMain stringifyIndex readLocal folder idx listings

/-- Spec-side description of the three artifact uploads of one changed
listing: all three files are read back from the destination folder and the
contents uploaded under the listing-relative filenames. -/
def artifactUploads (readLocal : String → Option Bytes) (folder : String)
    (l : ListingDescriptor) : Option (List SyncEvent) :=
  match readLocal (pathJoin folder (l.name ++ ".json")),
      readLocal (pathJoin folder (l.name ++ ".json.br")),
      readLocal (pathJoin folder (l.name ++ ".json.gz")) with
  | some c1, some c2, some c3 =>
    some [SyncEvent.upload (l.name ++ ".json") c1,
      SyncEvent.upload (l.name ++ ".json.br") c2,
      SyncEvent.upload (l.name ++ ".json.gz") c3]
  | _, _, _ => none

/-! ### Remote depot variant (`WebDAVDepotManager` in `depot.ts`) -/

namespace WebDAV

/-- The remote server's responses: the HTTP status returned for a `MKCOL`
on a directory path and for a `PUT` on a file path. -/
structure DavEnv where
  mkcolStatus : String → Nat
  putStatus : String → Nat

/-- A request issued to the WebDAV server. -/
inductive DavReq where
  | mkcol (path : String)
  | put (path : String) (content : Bytes)
deriving DecidableEq, Repr

/-- Errors thrown by `upload` / `ensureDirectoryExists`. -/
inductive DavError where
  | mkcolFailed (status : Nat)
  | putFailed (status : Nat)
deriving DecidableEq, Repr

/-- The directory paths of the `MKCOL` requests in a trace. -/
def mkcolPaths (evs : List DavReq) : List String :=
  evs.filterMap (fun e =>
    match e with
    | DavReq.mkcol p => some p
    | DavReq.put _ _ => none)

/-- `relativePath.substring(0, relativePath.lastIndexOf("/"))` on the
character list: everything before the last slash, empty when there is no
slash (in JS, `substring(0, -1)` is the empty string). -/
def beforeLastSlash : List Char → List Char
  | [] => []
  | c :: rest =>
    if rest.contains '/' then c :: beforeLastSlash rest else []

/-- The `dirname` computed at the top of `upload`. -/
def dirnameOf (s : String) : String := String.mk (beforeLastSlash s.data)

/-- `dirPath.split("/")` on the character list: splitting at every slash,
keeping empty segments (as the JS `String.prototype.split` does). -/
def splitOnSlash : List Char → List (List Char)
  | [] => [[]]
  | c :: rest =>
    match splitOnSlash rest with
    | [] => [[c]]
    | s :: ss => if c = '/' then [] :: s :: ss else (c :: s) :: ss

/-- `dirPath.split("/")`. -/
def splitSegments (s : String) : List String :=
  (splitOnSlash s.data).map (fun l => String.mk l)

/-- The body of the `for (const part of parts)` loop of
`ensureDirectoryExists`: grow `currentPath` part by part, skip prefixes in
the memo set, issue `MKCOL` for fresh ones; 201 and 405 add the prefix to
the set, anything else aborts.  Returns the issued requests, the new memo
set, and an optional error. -/
def ensureDirLoop (env : DavEnv) :
    List String → List String → String →
    List DavReq × List String × Option DavError
  | created, [], _ => ([], created, none)
  | created, part :: rest, currentPath =>
    let cp := currentPath ++ part ++ "/"
    if cp ∈ created then ensureDirLoop env created rest cp
    else
      let st := env.mkcolStatus cp
      if st = 201 ∨ st = 405 then
        let r := ensureDirLoop env (cp :: created) rest cp
        (DavReq.mkcol cp :: r.1, r.2)
      else
        ([DavReq.mkcol cp], created, some (DavError.mkcolFailed st))

/-- `WebDAVDepotManager.ensureDirectoryExists`. -/
def ensureDirectoryExists (env : DavEnv) (created : List String)
    (dirPath : String) : List DavReq × List String × Option DavError :=
  if dirPath ∈ created then ([], created, none)
  else
    ensureDirLoop env created
      ((splitSegments dirPath).filter (fun p => p.length > 0)) ""

/-- `WebDAVDepotManager.upload`: ensure the parent directory chain exists
(when the path has one), then `PUT` the content; a non-ok `PUT` status is an
error after the request was issued. -/
def upload (env : DavEnv) (created : List String) (relativePath : String)
    (content : Bytes) : List DavReq × List String × Option DavError :=
  let dirname := dirnameOf relativePath
  let r :=
    if dirname ≠ "" then ensureDirectoryExists env created dirname
    else ([], created, none)
  match r.2.2 with
  | some e => (r.1, r.2.1, some e)
  | none =>
    let st := env.putStatus relativePath
    (r.1 ++ [DavReq.put relativePath content], r.2.1,
     if 200 ≤ st ∧ st < 300 then none else some (DavError.putFailed st))

/-- A sequence of uploads through one `WebDAVDepotManager` instance,
threading the memoized set of created directories; the first error aborts
the run. -/
def runUploads (env : DavEnv) (created : List String) :
    List (String × Bytes) → List DavReq × List String × Option DavError
  | [] => ([], created, none)
  | (p, c) :: rest =>
    let r := upload env created p c
    match r.2.2 with
    | some e => (r.1, r.2.1, some e)
    | none =>
      let r2 := runUploads env r.2.1 rest
      (r.1 ++ r2.1, r2.2)

/-- The slash-terminated ancestor prefixes of a directory path, as built by
the `currentPath` accumulation of `ensureDirectoryExists`. -/
def prefixesFrom (cur : String) : List String → List String
  | [] => []
  | part :: rest => (cur ++ part ++ "/") :: prefixesFrom (cur ++ part ++ "/") rest

/-- All ancestor directory prefixes of a directory path. -/
def ancestorPrefixes (dirPath : String) : List String :=
  prefixesFrom "" ((splitSegments dirPath).filter (fun p => p.length > 0))

end WebDAV

/-! ### Helper lemmas -/

lemma string_ne_of_length_ne {a b : String} (h : a.length ≠ b.length) :
    a ≠ b := by
  intro e
  exact h (by rw [e])

lemma string_append_ne_self (s t : String) (h : t.length ≠ 0) : s ++ t ≠ s := by
  apply string_ne_of_length_ne
  rw [String.length_append]
  omega

lemma string_append_right_ne (s : String) {a b : String} (h : a ≠ b) :
    s ++ a ≠ s ++ b := by
  intro e
  apply h
  have hd : s.data ++ a.data = s.data ++ b.data := by
    have := congrArg String.data e
    simpa using this
  have h2 := List.append_cancel_left hd
  cases a
  cases b
  exact congrArg String.mk h2

lemma pathJoin_append (f a s : String) : pathJoin f a ++ s = pathJoin f (a ++ s) := by
  simp [pathJoin, String.append_assoc]

lemma json_br_eq (n : String) : (n ++ ".json") ++ ".br" = n ++ ".json.br" := by
  rw [String.append_assoc]
  have : ".json" ++ ".br" = ".json.br" := by decide
  rw [this]

lemma json_gz_eq (n : String) : (n ++ ".json") ++ ".gz" = n ++ ".json.gz" := by
  rw [String.append_assoc]
  have : ".json" ++ ".gz" = ".json.gz" := by decide
  rw [this]

lemma fsRead_artifacts {J : Type} (env : CodecEnv J)
    (folder date name : String) (content : J) :
    fsRead (writeListingArtifacts env folder date name content).1
        (pathJoin folder (name ++ ".json")) = some (env.stringify content) ∧
    fsRead (writeListingArtifacts env folder date name content).1
        (pathJoin folder (name ++ ".json.br")) =
      some (env.brotliCompress (env.stringify content)) ∧
    fsRead (writeListingArtifacts env folder date name content).1
        (pathJoin folder (name ++ ".json.gz")) =
      some (env.gzipCompress (env.stringify content)) := by
  have hbr : pathJoin folder (name ++ ".json") ++ ".br" =
      pathJoin folder (name ++ ".json.br") := by
    rw [pathJoin_append, json_br_eq]
  have hgz : pathJoin folder (name ++ ".json") ++ ".gz" =
      pathJoin folder (name ++ ".json.gz") := by
    rw [pathJoin_append, json_gz_eq]
  have hne1 : pathJoin folder (name ++ ".json") ++ ".gz" ≠
      pathJoin folder (name ++ ".json") :=
    string_append_ne_self _ _ (by decide)
  have hne2 : pathJoin folder (name ++ ".json") ++ ".br" ≠
      pathJoin folder (name ++ ".json") :=
    string_append_ne_self _ _ (by decide)
  have hne3 : pathJoin folder (name ++ ".json") ++ ".gz" ≠
      pathJoin folder (name ++ ".json") ++ ".br" :=
    string_append_right_ne _ (by decide)
  refine ⟨?_, ?_, ?_⟩ <;>
    simp [writeListingArtifacts, fsRead, List.find?, hne1, hne2, hbr, hgz,
      hbr ▸ hne3, hbr ▸ hne2, hgz ▸ hne1, hgz ▸ (hbr ▸ hne3)]

/-! ### Claim theorems: listing compiler -/

/-- C5: every `FileDescriptor` produced by the listing compiler — the
uncompressed one and the one per compression scheme — has `sha256` equal to
the digest of the exact bytes written at the described artifact's path in the
destination folder, and `size` equal to the byte length of those bytes. -/
theorem descriptors_content_addressed {J : Type} (env : CodecEnv J)
    (folder date name : String) (content : J) :
    (∃ b, fsRead (writeListingArtifacts env folder date name content).1
        (pathJoin folder (writeListingArtifacts env folder date name content).2.url)
          = some b ∧
      (writeListingArtifacts env folder date name content).2.sha256 =
        env.sha256hex b ∧
      (writeListingArtifacts env folder date name content).2.size = b.length) ∧
    (∃ b, fsRead (writeListingArtifacts env folder date name content).1
        (pathJoin folder (writeListingArtifacts env folder date name content).2.brotli.url)
          = some b ∧
      (writeListingArtifacts env folder date name content).2.brotli.sha256 =
        env.sha256hex b ∧
      (writeListingArtifacts env folder date name content).2.brotli.size =
        b.length) ∧
    (∃ b, fsRead (writeListingArtifacts env folder date name content).1
        (pathJoin folder (writeListingArtifacts env folder date name content).2.gzip.url)
          = some b ∧
      (writeListingArtifacts env folder date name content).2.gzip.sha256 =
        env.sha256hex b ∧
      (writeListingArtifacts env folder date name content).2.gzip.size =
        b.length) := by
  obtain ⟨h1, h2, h3⟩ := fsRead_artifacts env folder date name content
  have hu1 : (writeListingArtifacts env folder date name content).2.url =
      name ++ ".json" := rfl
  have hu2 : (writeListingArtifacts env folder date name content).2.brotli.url =
      name ++ ".json.br" := rfl
  have hu3 : (writeListingArtifacts env folder date name content).2.gzip.url =
      name ++ ".json.gz" := rfl
  refine ⟨⟨env.stringify content, ?_, rfl, rfl⟩,
    ⟨env.brotliCompress (env.stringify content), ?_, rfl, rfl⟩,
    ⟨env.gzipCompress (env.stringify content), ?_, rfl, rfl⟩⟩
  · rw [hu1]; exact h1
  · rw [hu2]; exact h2
  · rw [hu3]; exact h3

/-- C6: for any payload registered under a name, decompressing the brotli
artifact and decompressing the gzip artifact each yields the exact bytes of
the `<name>.json` artifact, and those bytes deserialize back to the payload —
given that the compression schemes are lossless (the external libraries'
contract) and that deserialization inverts serialization. -/
theorem compression_roundtrip {J : Type} (env : CodecEnv J)
    (brDec gzDec : Bytes → Bytes) (parse : Bytes → Option J)
    (hbr : ∀ b, brDec (env.brotliCompress b) = b)
    (hgz : ∀ b, gzDec (env.gzipCompress b) = b)
    (hparse : ∀ v, parse (env.stringify v) = some v)
    (folder date name : String) (content : J) :
    ∃ bjson bbr bgz,
      fsRead (writeListingArtifacts env folder date name content).1
        (pathJoin folder (name ++ ".json")) = some bjson ∧
      fsRead (writeListingArtifacts env folder date name content).1
        (pathJoin folder (name ++ ".json.br")) = some bbr ∧
      fsRead (writeListingArtifacts env folder date name content).1
        (pathJoin folder (name ++ ".json.gz")) = some bgz ∧
      brDec bbr = bjson ∧ gzDec bgz = bjson ∧ parse bjson = some content := by
  obtain ⟨h1, h2, h3⟩ := fsRead_artifacts env folder date name content
  exact ⟨env.stringify content, env.brotliCompress (env.stringify content),
    env.gzipCompress (env.stringify content), h1, h2, h3,
    hbr _, hgz _, hparse _⟩

/-- Witness for `compression_roundtrip`: an environment in which the brotli
scheme prepends byte 0, the gzip scheme prepends byte 1 (both undone by
dropping the first byte), serialization of a number is a singleton buffer
and parsing takes the head. -/
theorem compression_roundtrip_witness :
    ∃ bjson bbr bgz,
      fsRead (writeListingArtifacts
          (⟨fun n => [n], fun _ => "H", fun b => 0 :: b, fun b => 1 :: b⟩ :
            CodecEnv Nat) "output" "T" "a" 7).1
        (pathJoin "output" ("a" ++ ".json")) = some bjson ∧
      fsRead (writeListingArtifacts
          (⟨fun n => [n], fun _ => "H", fun b => 0 :: b, fun b => 1 :: b⟩ :
            CodecEnv Nat) "output" "T" "a" 7).1
        (pathJoin "output" ("a" ++ ".json.br")) = some bbr ∧
      fsRead (writeListingArtifacts
          (⟨fun n => [n], fun _ => "H", fun b => 0 :: b, fun b => 1 :: b⟩ :
            CodecEnv Nat) "output" "T" "a" 7).1
        (pathJoin "output" ("a" ++ ".json.gz")) = some bgz ∧
      List.tail bbr = bjson ∧ List.tail bgz = bjson ∧
      List.head? bjson = some 7 :=
  compression_roundtrip
    (⟨fun n => [n], fun _ => "H", fun b => 0 :: b, fun b => 1 :: b⟩ :
      CodecEnv Nat)
    List.tail List.tail List.head?
    (fun _ => rfl) (fun _ => rfl) (fun _ => rfl) "output" "T" "a" 7

lemma fsRead_append_right (w1 w2 : List (String × Bytes)) (p : String)
    (b : Bytes) (h : fsRead w2 p = some b) : fsRead (w1 ++ w2) p = some b := by
  unfold fsRead at h ⊢
  rw [List.reverse_append, List.find?_append]
  cases hf : w2.reverse.find? (fun e => e.1 = p) with
  | none => rw [hf] at h; simp at h
  | some e => rw [hf] at h; simp at h; simp [hf, h]

/-- C7: registering a name that is already registered in the same run fails
fast with an error before performing any write: the builder state — registry
entry and filesystem write log of the first registration included — is
returned unchanged. -/
theorem writeListing_duplicate_fails {J : Type} (env : CodecEnv J)
    (st : BuilderState) (name : String) (content : J)
    (d : ListingDescriptor) (h : listingLookup st.listings name = some d) :
    writeListing env st name content =
      (st, Except.error ("Listing " ++ name ++ " has already been written.")) ∧
    listingLookup (writeListing env st name content).1.listings name = some d ∧
    (writeListing env st name content).1.fsWrites = st.fsWrites := by
  have hany : st.listings.any (fun e => e.1 = name) = true := by
    unfold listingLookup at h
    cases hf : st.listings.find? (fun e => e.1 = name) with
    | none => rw [hf] at h; simp at h
    | some e =>
      have hp := List.find?_some hf
      rw [List.any_eq_true]
      exact ⟨e, List.mem_of_find?_eq_some hf, hp⟩
  have heq : writeListing env st name content =
      (st, Except.error ("Listing " ++ name ++ " has already been written.")) := by
    unfold writeListing
    rw [if_pos hany]
  exact ⟨heq, by rw [heq]; exact h, by rw [heq]⟩

/-- Witness for `writeListing_duplicate_fails` at a concrete one-listing
state. -/
theorem writeListing_duplicate_fails_witness :
    listingLookup
        (BuilderState.mk "o" "T"
          [("a", ListingDescriptor.mk "a" "T" "a.json" 1 "H"
            (FileDescriptor.mk "a.json.br" 2 "H")
            (FileDescriptor.mk "a.json.gz" 2 "H"))] []).listings "a" =
      some (ListingDescriptor.mk "a" "T" "a.json" 1 "H"
        (FileDescriptor.mk "a.json.br" 2 "H")
        (FileDescriptor.mk "a.json.gz" 2 "H")) ∧
    writeListing (CodecEnv.mk (fun n => [n]) (fun _ => "H")
        (fun b => 0 :: b) (fun b => 1 :: b))
      (BuilderState.mk "o" "T"
        [("a", ListingDescriptor.mk "a" "T" "a.json" 1 "H"
          (FileDescriptor.mk "a.json.br" 2 "H")
          (FileDescriptor.mk "a.json.gz" 2 "H"))] []) "a" 8 =
      (BuilderState.mk "o" "T"
        [("a", ListingDescriptor.mk "a" "T" "a.json" 1 "H"
          (FileDescriptor.mk "a.json.br" 2 "H")
          (FileDescriptor.mk "a.json.gz" 2 "H"))] [],
       Except.error ("Listing " ++ "a" ++ " has already been written.")) :=
  ⟨by decide,
   (writeListing_duplicate_fails
     (CodecEnv.mk (fun n => [n]) (fun _ => "H")
       (fun b => 0 :: b) (fun b => 1 :: b))
     (BuilderState.mk "o" "T"
       [("a", ListingDescriptor.mk "a" "T" "a.json" 1 "H"
         (FileDescriptor.mk "a.json.br" 2 "H")
         (FileDescriptor.mk "a.json.gz" 2 "H"))] []) "a" 8
     (ListingDescriptor.mk "a" "T" "a.json" 1 "H"
       (FileDescriptor.mk "a.json.br" 2 "H")
       (FileDescriptor.mk "a.json.gz" 2 "H")) (by decide)).1⟩

lemma registeredNames_cons (v : String) (rest : List String) :
    registeredNames (neoForgeActions (v :: rest)) =
      (if isSafePath v then ["neoforge/" ++ v] else []) ++
        registeredNames (neoForgeActions rest) := by
  cases hv : isSafePath v <;> simp [neoForgeActions, registeredNames, hv]

lemma warnedVersions_cons (v : String) (rest : List String) :
    warnedVersions (neoForgeActions (v :: rest)) =
      (if isSafePath v then [] else [v]) ++
        warnedVersions (neoForgeActions rest) := by
  cases hv : isSafePath v <;> simp [neoForgeActions, warnedVersions, hv]

/-- C8: `isSafePath` accepts a string exactly when every character is an
alphanumeric, underscore, period, hyphen or space; it accepts `"1.20.1"` and
`"21.1.72-beta"`, rejects `"../etc/passwd"` and `"a/b"`; and in the NeoForge
version loop an unsafe version string is skipped with a warning while every
safe version's listing is still registered (no abort). -/
theorem isSafePath_charwise_and_skip :
    (∀ s : String, isSafePath s = true ↔ ∀ c ∈ s.data, AllowedChar c) ∧
    isSafePath "1.20.1" = true ∧ isSafePath "21.1.72-beta" = true ∧
    isSafePath "../etc/passwd" = false ∧ isSafePath "a/b" = false ∧
    (∀ vs : List String,
      registeredNames (neoForgeActions vs) =
        (vs.filter (fun v => isSafePath v)).map (fun v => "neoforge/" ++ v) ∧
      warnedVersions (neoForgeActions vs) =
        vs.filter (fun v => !(isSafePath v))) := by
  have hchar : ∀ c, isAllowedPathChar c = true ↔ AllowedChar c := by
    intro c
    simp only [isAllowedPathChar, AllowedChar, Bool.or_eq_true,
      decide_eq_true_eq]
    tauto
  refine ⟨?_, by decide, by decide, by decide, by decide, ?_⟩
  · intro s
    simp [isSafePath, List.all_eq_true, hchar]
  · intro vs
    induction vs with
    | nil => simp [neoForgeActions, registeredNames, warnedVersions]
    | cons v rest ih =>
      cases hv : isSafePath v <;>
        simp [registeredNames_cons, warnedVersions_cons, hv,
          List.filter_cons, ih.1, ih.2]

/-- C10: `isSafePath` is purely character-wise — it accepts the empty string
and dot-only names such as `".."` and `". ."`, so such third-party version
strings pass the path-safety boundary and are registered rather than
skipped. -/
theorem isSafePath_accepts_empty_and_dots :
    isSafePath "" = true ∧ isSafePath ".." = true ∧ isSafePath ". ." = true ∧
    registeredNames (neoForgeActions ["..", "", "1.0"]) =
      ["neoforge/..", "neoforge/", "neoforge/1.0"] := by decide

/-! ### C3: the `index` listing and what actually reaches the depot -/

/-- A concrete codec environment for counterexample runs: payloads are
numbers serialized as singleton buffers, every digest is `"H"`, brotli
prepends byte 0, gzip prepends byte 1. -/
def demoEnv : CodecEnv Nat :=
  CodecEnv.mk (fun n => [n]) (fun _ => "H") (fun b => 0 :: b) (fun b => 1 :: b)

/-- A fresh builder over the `output` destination folder. -/
def demoStart : BuilderState := BuilderState.mk "output" "T" [] []

/-- One run: register a single listing `a`, then `finish`. -/
def demoFinished : BuilderState :=
  finish demoEnv (fun _ => 99) (writeListing demoEnv demoStart "a" 7).1

/-- Syncing the run against a present-but-empty baseline index. -/
def demoSync : List SyncEvent × Option SyncError :=
  syncWithDepot (fun _ => [5]) (fsRead demoFinished.fsWrites) "output"
    (some []) false (demoFinished.listings.map (fun e => e.2))

/-- C3 counterexample: in a concrete run, `finish` does not register a
listing named `index` (the registry still holds only `a`), and the completed
sync uploads neither `index.json` nor its brotli/gzip representations — the
depot never receives the index document as a listing. -/
theorem finish_index_not_published_cex :
    demoFinished.listings.map (fun e => e.1) = ["a"] ∧
    demoSync.2 = none ∧
    (∀ e ∈ demoSync.1, SyncEvent.path e ≠ "index.json" ∧
      SyncEvent.path e ≠ "index.json.br" ∧
      SyncEvent.path e ≠ "index.json.gz") := by decide

/-- C3 (amended): `finish` materializes one more listing named `index`
locally — writing `index.json` and its brotli and gzip representations into
the destination folder, with payload the list of every registered listing's
descriptor — but does not add it to the listing registry: the registry is
returned unchanged, so the sync engine (which iterates the registry) never
uploads the `index` artifacts and the depot receives the index only as the
uncompressed `.depot-index.json` document. -/
theorem finish_materializes_index_locally {J : Type} (env : CodecEnv J)
    (toJ : List ListingDescriptor → J) (st : BuilderState) :
    (finish env toJ st).listings = st.listings ∧
    fsRead (finish env toJ st).fsWrites
        (pathJoin st.destinationFolder "index.json") =
      some (env.stringify (toJ (st.listings.map (fun e => e.2)))) ∧
    fsRead (finish env toJ st).fsWrites
        (pathJoin st.destinationFolder "index.json.br") =
      some (env.brotliCompress
        (env.stringify (toJ (st.listings.map (fun e => e.2))))) ∧
    fsRead (finish env toJ st).fsWrites
        (pathJoin st.destinationFolder "index.json.gz") =
      some (env.gzipCompress
        (env.stringify (toJ (st.listings.map (fun e => e.2))))) := by
  obtain ⟨h1, h2, h3⟩ := fsRead_artifacts env st.destinationFolder
    st.referenceDate "index" (toJ (st.listings.map (fun e => e.2)))
  have e1 : "index" ++ ".json" = "index.json" := by decide
  have e2 : "index" ++ ".json.br" = "index.json.br" := by decide
  have e3 : "index" ++ ".json.gz" = "index.json.gz" := by decide
  rw [e1] at h1
  rw [e2] at h2
  rw [e3] at h3
  exact ⟨rfl, fsRead_append_right _ _ _ _ h1, fsRead_append_right _ _ _ _ h2,
    fsRead_append_right _ _ _ _ h3⟩

/-! ### Sync engine lemmas -/

instance : IsTotal ListingDescriptor (fun a b => a.name ≤ b.name) :=
  ⟨fun a b => le_total a.name b.name⟩

instance : IsTrans ListingDescriptor (fun a b => a.name ≤ b.name) :=
  ⟨fun _ _ _ hab hbc => le_trans hab hbc⟩

lemma dot_json (n : String) : n ++ "." ++ "json" = n ++ ".json" := by
  rw [String.append_assoc]
  have : ("." : String) ++ "json" = ".json" := by decide
  rw [this]

lemma dot_json_br (n : String) : n ++ "." ++ "json.br" = n ++ ".json.br" := by
  rw [String.append_assoc]
  have : ("." : String) ++ "json.br" = ".json.br" := by decide
  rw [this]

lemma dot_json_gz (n : String) : n ++ "." ++ "json.gz" = n ++ ".json.gz" := by
  rw [String.append_assoc]
  have : ("." : String) ++ "json.gz" = ".json.gz" := by decide
  rw [this]

lemma extensionsToUpload_eq : extensionsToUpload = ["json", "json.br", "json.gz"] := by
  decide

/-- When the inner artifact loop completes without a read failure, its trace
is exactly the three artifact uploads described by `artifactUploads`. -/
lemma uploadArtifactsGo_none (readLocal : String → Option Bytes)
    (folder : String) (l : ListingDescriptor)
    (h : (uploadArtifactsGo readLocal folder l.name extensionsToUpload).2 = none) :
    artifactUploads readLocal folder l =
      some (uploadArtifactsGo readLocal folder l.name extensionsToUpload).1 := by
  rw [extensionsToUpload_eq] at h ⊢
  simp only [uploadArtifactsGo, dot_json, dot_json_br, dot_json_gz] at h ⊢
  rcases h1 : readLocal (pathJoin folder (l.name ++ ".json")) with _ | c1
  · rw [h1] at h; simp at h
  rcases h2 : readLocal (pathJoin folder (l.name ++ ".json.br")) with _ | c2
  · rw [h2] at h; simp [h1] at h
  rcases h3 : readLocal (pathJoin folder (l.name ++ ".json.gz")) with _ | c3
  · rw [h3] at h; simp [h1, h2] at h
  simp [artifactUploads, h1, h2, h3]

/-- The relation between one compiled listing and the block of uploads the
sync loop performs for it. -/
def ListingBlock (readLocal : String → Option Bytes) (folder : String)
    (existing : String → Option ListingDescriptor)
    (l : ListingDescriptor) (b : List SyncEvent) : Prop :=
  (shouldSkip (existing l.name) l = true → b = []) ∧
  (shouldSkip (existing l.name) l = false →
    artifactUploads readLocal folder l = some b)

/-- A completed sync loop's trace decomposes into one block per listing:
empty for content-identical listings, the three artifact uploads
otherwise. -/
lemma syncLoop_success (readLocal : String → Option Bytes) (folder : String)
    (existing : String → Option ListingDescriptor) :
    ∀ (ls : List ListingDescriptor) (evs : List SyncEvent),
      syncLoop readLocal folder existing ls = (evs, none) →
      ∃ blocks : List (List SyncEvent),
        List.Forall₂ (ListingBlock readLocal folder existing) ls blocks ∧
        evs = blocks.flatten := by
  intro ls
  induction ls with
  | nil =>
    intro evs h
    simp only [syncLoop] at h
    have hevs : evs = [] := (congrArg Prod.fst h).symm
    exact ⟨[], List.Forall₂.nil, by simp [hevs]⟩
  | cons l rest ih =>
    intro evs h
    simp only [syncLoop] at h
    by_cases hskip : shouldSkip (existing l.name) l = true
    · rw [if_pos hskip] at h
      obtain ⟨blocks, hf, he⟩ := ih evs h
      exact ⟨[] :: blocks,
        List.Forall₂.cons ⟨fun _ => rfl, fun hc => by rw [hskip] at hc; cases hc⟩ hf,
        by simpa using he⟩
    · rw [if_neg hskip] at h
      rcases hr : (uploadArtifactsGo readLocal folder l.name extensionsToUpload).2 with
        _ | e
      · rw [hr] at h
        simp only [] at h
        have h1 : (uploadArtifactsGo readLocal folder l.name extensionsToUpload).1 ++
            (syncLoop readLocal folder existing rest).1 = evs := congrArg Prod.fst h
        have h2 : (syncLoop readLocal folder existing rest).2 = none :=
          congrArg Prod.snd h
        obtain ⟨blocks, hf, he⟩ := ih (syncLoop readLocal folder existing rest).1
          (Prod.ext rfl h2)
        refine ⟨(uploadArtifactsGo readLocal folder l.name extensionsToUpload).1 :: blocks,
          List.Forall₂.cons ⟨fun hc => absurd hc hskip,
            fun _ => uploadArtifactsGo_none readLocal folder l hr⟩ hf, ?_⟩
        simp only [List.flatten_cons]
        rw [← he, h1]
      · rw [hr] at h
        exact absurd (congrArg Prod.snd h) (by simp)

/-- If every listing is content-identical to its baseline entry, the sync
loop uploads nothing. -/
lemma syncLoop_all_skip (readLocal : String → Option Bytes) (folder : String)
    (existing : String → Option ListingDescriptor) :
    ∀ ls : List ListingDescriptor,
      (∀ l ∈ ls, shouldSkip (existing l.name) l = true) →
      syncLoop readLocal folder existing ls = ([], none) := by
  intro ls
  induction ls with
  | nil => intro _; rfl
  | cons l rest ih =>
    intro hall
    simp only [syncLoop]
    rw [if_pos (hall l (List.mem_cons_self l rest))]
    exact ih (fun x hx => hall x (List.mem_cons_of_mem l hx))

/-- With unique baseline names, the code's skip test agrees with the spec's
"a baseline entry with the same name, sha256 and size exists". -/
lemma shouldSkip_iff (idx : List ListingDescriptor) (l : ListingDescriptor)
    (hnodup : (idx.map (fun e => e.name)).Nodup) :
    shouldSkip (lookupExisting idx l.name) l = true ↔
      ∃ e ∈ idx, e.name = l.name ∧ e.sha256 = l.sha256 ∧ e.size = l.size := by
  constructor
  · intro h
    unfold shouldSkip at h
    rcases hl : lookupExisting idx l.name with _ | e
    · rw [hl] at h; cases h
    · rw [hl] at h
      have hmem : e ∈ idx := by
        have := List.mem_of_find?_eq_some hl
        simpa using this
      have hname : e.name = l.name := by
        have := List.find?_some hl
        simpa using this
      have hss : e.sha256 = l.sha256 ∧ e.size = l.size := by
        simpa using h
      exact ⟨e, hmem, hname, hss.1, hss.2⟩
  · rintro ⟨e, hmem, hname, hsha, hsize⟩
    unfold shouldSkip
    rcases hl : lookupExisting idx l.name with _ | e'
    · exfalso
      have := List.find?_eq_none.1 hl e (by simpa using hmem)
      simp [hname] at this
    · have hmem' : e' ∈ idx := by
        have := List.mem_of_find?_eq_some hl
        simpa using this
      have hname' : e'.name = l.name := by
        have := List.find?_some hl
        simpa using this
      have : e' = e :=
        List.inj_on_of_nodup_map hnodup hmem' hmem (by rw [hname', hname])
      subst this
      simp [hsha, hsize]

/-- C1: in a completed sync against a baseline index, each newly compiled
listing whose name, sha256 and size all match a baseline entry contributes no
upload, and every other listing contributes exactly its three physical
artifacts, read back from the local destination folder; the trace is these
blocks in order followed by the index upload. -/
theorem sync_skip_matching_upload_changed
    (SI : List ListingDescriptor → Bytes) (readLocal : String → Option Bytes)
    (folder : String) (idx : List ListingDescriptor) (fullResync : Bool)
    (listings : List ListingDescriptor) (evs : List SyncEvent)
    (hnodup : (idx.map (fun e => e.name)).Nodup)
    (h : syncWithDepot SI readLocal folder (some idx) fullResync listings =
      (evs, none)) :
    ∃ blocks : List (List SyncEvent),
      List.Forall₂ (fun l b =>
        ((∃ e ∈ idx, e.name = l.name ∧ e.sha256 = l.sha256 ∧ e.size = l.size) →
          b = []) ∧
        ((¬ ∃ e ∈ idx, e.name = l.name ∧ e.sha256 = l.sha256 ∧
            e.size = l.size) →
          artifactUploads readLocal folder l = some b)) listings blocks ∧
      evs = blocks.flatten ++
        [SyncEvent.upload DEPOT_INDEX_PATH (SI (sortByName listings))] := by
  simp only [syncWithDepot, syncMain] at h
  rcases hr : (syncLoop readLocal folder (lookupExisting idx) listings).2 with _ | e
  · rw [hr] at h
    have hevs : (syncLoop readLocal folder (lookupExisting idx) listings).1 ++
        [SyncEvent.upload DEPOT_INDEX_PATH (SI (sortByName listings))] = evs :=
      congrArg Prod.fst h
    obtain ⟨blocks, hf, he⟩ := syncLoop_success readLocal folder
      (lookupExisting idx) listings _ (Prod.ext rfl hr)
    refine ⟨blocks, List.Forall₂.imp ?_ hf, ?_⟩
    · intro l b hb
      constructor
      · intro hex
        exact hb.1 ((shouldSkip_iff idx l hnodup).2 hex)
      · intro hnex
        apply hb.2
        cases hsk : shouldSkip (lookupExisting idx l.name) l
        · rfl
        · exact absurd ((shouldSkip_iff idx l hnodup).1 hsk) hnex
    · rw [← hevs]
      exact congrArg (fun t => t ++
        [SyncEvent.upload DEPOT_INDEX_PATH (SI (sortByName listings))]) he
  · rw [hr] at h
    exact absurd (congrArg Prod.snd h) (by simp)

/-- Witness for `sync_skip_matching_upload_changed`: a baseline with one
entry matching the single compiled listing, so the block is empty and only
the index is uploaded. -/
theorem sync_skip_matching_upload_changed_witness :
    ∃ blocks : List (List SyncEvent),
      List.Forall₂ (fun l b =>
        ((∃ e ∈ [ListingDescriptor.mk "a" "T" "a.json" 1 "S1"
            (FileDescriptor.mk "a.json.br" 2 "B")
            (FileDescriptor.mk "a.json.gz" 2 "G")],
            e.name = l.name ∧ e.sha256 = l.sha256 ∧ e.size = l.size) →
          b = []) ∧
        ((¬ ∃ e ∈ [ListingDescriptor.mk "a" "T" "a.json" 1 "S1"
            (FileDescriptor.mk "a.json.br" 2 "B")
            (FileDescriptor.mk "a.json.gz" 2 "G")],
            e.name = l.name ∧ e.sha256 = l.sha256 ∧ e.size = l.size) →
          artifactUploads (fun _ => some [7]) "o" l = some b))
        [ListingDescriptor.mk "a" "T2" "a.json" 1 "S1"
          (FileDescriptor.mk "a.json.br" 3 "B2")
          (FileDescriptor.mk "a.json.gz" 3 "G2")] blocks ∧
      [SyncEvent.upload DEPOT_INDEX_PATH [9]] = blocks.flatten ++
        [SyncEvent.upload DEPOT_INDEX_PATH
          ((fun _ => [9]) (sortByName
            [ListingDescriptor.mk "a" "T2" "a.json" 1 "S1"
              (FileDescriptor.mk "a.json.br" 3 "B2")
              (FileDescriptor.mk "a.json.gz" 3 "G2")]))] :=
  sync_skip_matching_upload_changed (fun _ => [9]) (fun _ => some [7]) "o"
    [ListingDescriptor.mk "a" "T" "a.json" 1 "S1"
      (FileDescriptor.mk "a.json.br" 2 "B")
      (FileDescriptor.mk "a.json.gz" 2 "G")] false
    [ListingDescriptor.mk "a" "T2" "a.json" 1 "S1"
      (FileDescriptor.mk "a.json.br" 3 "B2")
      (FileDescriptor.mk "a.json.gz" 3 "G2")]
    [SyncEvent.upload DEPOT_INDEX_PATH [9]] (by decide) (by decide)

/-- C2: with the remote index absent, sync without the resync flag terminates
the run before uploading anything (empty trace, exit error); with the resync
flag it proceeds with an empty baseline, so every listing's three artifacts
are uploaded, followed by the index. -/
theorem sync_missing_index_guard :
    (∀ (SI : List ListingDescriptor → Bytes) (readLocal : String → Option Bytes)
        (folder : String) (listings : List ListingDescriptor),
      syncWithDepot SI readLocal folder none false listings =
        ([], some SyncError.exitFullResyncRequired)) ∧
    (∀ (SI : List ListingDescriptor → Bytes) (readLocal : String → Option Bytes)
        (folder : String) (listings : List ListingDescriptor)
        (evs : List SyncEvent),
      syncWithDepot SI readLocal folder none true listings = (evs, none) →
      ∃ blocks : List (List SyncEvent),
        List.Forall₂ (fun l b => artifactUploads readLocal folder l = some b)
          listings blocks ∧
        evs = blocks.flatten ++
          [SyncEvent.upload DEPOT_INDEX_PATH (SI (sortByName listings))]) := by
  constructor
  · intro SI readLocal folder listings
    rfl
  · intro SI readLocal folder listings evs h
    simp only [syncWithDepot, syncMain, if_true] at h
    rcases hr : (syncLoop readLocal folder (lookupExisting []) listings).2 with _ | e
    · rw [hr] at h
      have hevs : (syncLoop readLocal folder (lookupExisting []) listings).1 ++
          [SyncEvent.upload DEPOT_INDEX_PATH (SI (sortByName listings))] = evs :=
        congrArg Prod.fst h
      obtain ⟨blocks, hf, he⟩ := syncLoop_success readLocal folder
        (lookupExisting []) listings _ (Prod.ext rfl hr)
      refine ⟨blocks, List.Forall₂.imp ?_ hf, ?_⟩
      · intro l b hb
        exact hb.2 rfl
      · rw [← hevs]
        exact congrArg (fun t => t ++
          [SyncEvent.upload DEPOT_INDEX_PATH (SI (sortByName listings))]) he
    · rw [hr] at h
      exact absurd (congrArg Prod.snd h) (by simp)

/-- Witness for `sync_missing_index_guard`: with no remote index, the
no-resync run exits with an empty trace, and the resync run over one listing
uploads its three artifacts and the index. -/
theorem sync_missing_index_guard_witness :
    syncWithDepot (fun _ => [9]) (fun _ => some [7]) "o" none false
      [ListingDescriptor.mk "a" "T" "a.json" 1 "S1"
        (FileDescriptor.mk "a.json.br" 2 "B")
        (FileDescriptor.mk "a.json.gz" 2 "G")] =
      ([], some SyncError.exitFullResyncRequired) ∧
    (∃ blocks : List (List SyncEvent),
      List.Forall₂ (fun l b => artifactUploads (fun _ => some [7]) "o" l = some b)
        [ListingDescriptor.mk "a" "T" "a.json" 1 "S1"
          (FileDescriptor.mk "a.json.br" 2 "B")
          (FileDescriptor.mk "a.json.gz" 2 "G")] blocks ∧
      [SyncEvent.upload ("a" ++ "." ++ "json") [7],
        SyncEvent.upload ("a" ++ "." ++ "json.br") [7],
        SyncEvent.upload ("a" ++ "." ++ "json.gz") [7],
        SyncEvent.upload DEPOT_INDEX_PATH [9]] = blocks.flatten ++
        [SyncEvent.upload DEPOT_INDEX_PATH
          ((fun _ => [9]) (sortByName
            [ListingDescriptor.mk "a" "T" "a.json" 1 "S1"
              (FileDescriptor.mk "a.json.br" 2 "B")
              (FileDescriptor.mk "a.json.gz" 2 "G")]))]) :=
  ⟨sync_missing_index_guard.1 (fun _ => [9]) (fun _ => some [7]) "o" _,
   sync_missing_index_guard.2 (fun _ => [9]) (fun _ => some [7]) "o"
     [ListingDescriptor.mk "a" "T" "a.json" 1 "S1"
       (FileDescriptor.mk "a.json.br" 2 "B")
       (FileDescriptor.mk "a.json.gz" 2 "G")]
     [SyncEvent.upload ("a" ++ "." ++ "json") [7],
       SyncEvent.upload ("a" ++ "." ++ "json.br") [7],
       SyncEvent.upload ("a" ++ "." ++ "json.gz") [7],
       SyncEvent.upload DEPOT_INDEX_PATH [9]] (by decide)⟩

/-- C4: every completed sync ends with an upload to the well-known index
path of the serialized new index — exactly this run's compiled descriptors
sorted by name (a sorted permutation; baseline-only entries never appear) —
and that upload happens even when every listing was skipped as unchanged
(the trace is then the index upload alone). -/
theorem sync_publishes_sorted_index
    (SI : List ListingDescriptor → Bytes) (readLocal : String → Option Bytes)
    (folder : String) (depotIndex : Option (List ListingDescriptor))
    (fullResync : Bool) (listings : List ListingDescriptor)
    (evs : List SyncEvent)
    (h : syncWithDepot SI readLocal folder depotIndex fullResync listings =
      (evs, none)) :
    evs.getLast? =
      some (SyncEvent.upload DEPOT_INDEX_PATH (SI (sortByName listings))) ∧
    List.Sorted (fun a b => a.name ≤ b.name) (sortByName listings) ∧
    (sortByName listings).Perm listings ∧
    ((∀ l ∈ listings,
        shouldSkip (lookupExisting (depotIndex.getD []) l.name) l = true) →
      evs = [SyncEvent.upload DEPOT_INDEX_PATH (SI (sortByName listings))]) := by
  have hmain : syncMain SI readLocal folder (depotIndex.getD []) listings =
      (evs, none) := by
    cases depotIndex with
    | none =>
      cases fullResync with
      | false => simp [syncWithDepot] at h
      | true => exact h
    | some idx => exact h
  simp only [syncMain] at hmain
  rcases hr : (syncLoop readLocal folder (lookupExisting (depotIndex.getD []))
      listings).2 with _ | e
  · rw [hr] at hmain
    have hevs : (syncLoop readLocal folder
          (lookupExisting (depotIndex.getD [])) listings).1 ++
        [SyncEvent.upload DEPOT_INDEX_PATH (SI (sortByName listings))] = evs :=
      congrArg Prod.fst hmain
    refine ⟨by rw [← hevs]; exact List.getLast?_concat _, ?_, ?_, ?_⟩
    · unfold sortByName
      exact List.sorted_insertionSort _ _
    · unfold sortByName
      exact List.perm_insertionSort _ _
    · intro hall
      have hskipall := syncLoop_all_skip readLocal folder
        (lookupExisting (depotIndex.getD [])) listings hall
      have : (syncLoop readLocal folder (lookupExisting (depotIndex.getD []))
          listings).1 = [] := congrArg Prod.fst hskipall
      rw [← hevs, this]
      rfl
  · rw [hr] at hmain
    exact absurd (congrArg Prod.snd hmain) (by simp)

/-- Witness for `sync_publishes_sorted_index`: a run in which the single
listing matches the baseline, so only the index upload happens. -/
theorem sync_publishes_sorted_index_witness :
    [SyncEvent.upload DEPOT_INDEX_PATH ([9] : Bytes)].getLast? =
      some (SyncEvent.upload DEPOT_INDEX_PATH
        ((fun _ => [9]) (sortByName
          [ListingDescriptor.mk "a" "T2" "a.json" 1 "S1"
            (FileDescriptor.mk "a.json.br" 3 "B2")
            (FileDescriptor.mk "a.json.gz" 3 "G2")]))) ∧
    List.Sorted (fun a b => a.name ≤ b.name) (sortByName
      [ListingDescriptor.mk "a" "T2" "a.json" 1 "S1"
        (FileDescriptor.mk "a.json.br" 3 "B2")
        (FileDescriptor.mk "a.json.gz" 3 "G2")]) ∧
    (sortByName
      [ListingDescriptor.mk "a" "T2" "a.json" 1 "S1"
        (FileDescriptor.mk "a.json.br" 3 "B2")
        (FileDescriptor.mk "a.json.gz" 3 "G2")]).Perm
      [ListingDescriptor.mk "a" "T2" "a.json" 1 "S1"
        (FileDescriptor.mk "a.json.br" 3 "B2")
        (FileDescriptor.mk "a.json.gz" 3 "G2")] ∧
    ((∀ l ∈ [ListingDescriptor.mk "a" "T2" "a.json" 1 "S1"
        (FileDescriptor.mk "a.json.br" 3 "B2")
        (FileDescriptor.mk "a.json.gz" 3 "G2")],
        shouldSkip (lookupExisting ((some
          [ListingDescriptor.mk "a" "T" "a.json" 1 "S1"
            (FileDescriptor.mk "a.json.br" 2 "B")
            (FileDescriptor.mk "a.json.gz" 2 "G")]).getD []) l.name) l = true) →
      [SyncEvent.upload DEPOT_INDEX_PATH ([9] : Bytes)] =
        [SyncEvent.upload DEPOT_INDEX_PATH
          ((fun _ => [9]) (sortByName
            [ListingDescriptor.mk "a" "T2" "a.json" 1 "S1"
              (FileDescriptor.mk "a.json.br" 3 "B2")
              (FileDescriptor.mk "a.json.gz" 3 "G2")]))]) :=
  sync_publishes_sorted_index (fun _ => [9]) (fun _ => some [7]) "o"
    (some [ListingDescriptor.mk "a" "T" "a.json" 1 "S1"
      (FileDescriptor.mk "a.json.br" 2 "B")
      (FileDescriptor.mk "a.json.gz" 2 "G")]) false
    [ListingDescriptor.mk "a" "T2" "a.json" 1 "S1"
      (FileDescriptor.mk "a.json.br" 3 "B2")
      (FileDescriptor.mk "a.json.gz" 3 "G2")]
    [SyncEvent.upload DEPOT_INDEX_PATH [9]] (by decide)

/-! ### Remote depot lemmas (C9) -/

namespace WebDAV

@[simp] lemma mkcolPaths_nil : mkcolPaths [] = [] := rfl

@[simp] lemma mkcolPaths_cons_mkcol (p : String) (evs : List DavReq) :
    mkcolPaths (DavReq.mkcol p :: evs) = p :: mkcolPaths evs := rfl

@[simp] lemma mkcolPaths_cons_put (p : String) (c : Bytes) (evs : List DavReq) :
    mkcolPaths (DavReq.put p c :: evs) = mkcolPaths evs := rfl

@[simp] lemma mkcolPaths_append (l1 l2 : List DavReq) :
    mkcolPaths (l1 ++ l2) = mkcolPaths l1 ++ mkcolPaths l2 := by
  simp [mkcolPaths]

/-- The run invariant of the memoized directory-creation protocol: the memo
set only grows; the `MKCOL` trace has no repeated path; no issued path was
already memoized; and every issued path either had a success status (201 or
405) and ended memoized, or had any other status and the run aborted with
exactly that `MKCOL` failure. -/
def DavInv (env : DavEnv) (created : List String)
    (r : List DavReq × List String × Option DavError) : Prop :=
  (∀ q ∈ created, q ∈ r.2.1) ∧
  (mkcolPaths r.1).Nodup ∧
  (∀ q ∈ mkcolPaths r.1, q ∉ created) ∧
  (∀ q ∈ mkcolPaths r.1,
    ((env.mkcolStatus q = 201 ∨ env.mkcolStatus q = 405) ∧ q ∈ r.2.1) ∨
    (¬(env.mkcolStatus q = 201 ∨ env.mkcolStatus q = 405) ∧
      r.2.2 = some (DavError.mkcolFailed (env.mkcolStatus q))))

lemma davInv_trivial (env : DavEnv) (created : List String) :
    DavInv env created ([], created, none) :=
  ⟨fun _ hq => hq, List.nodup_nil, by simp, by simp⟩

lemma davInv_append {env : DavEnv} {c1 : List String} {evs1 evs2 : List DavReq}
    {cr1 cr2 : List String} {er2 : Option DavError}
    (h1 : DavInv env c1 (evs1, cr1, none))
    (h2 : DavInv env cr1 (evs2, cr2, er2)) :
    DavInv env c1 (evs1 ++ evs2, cr2, er2) := by
  obtain ⟨m1, n1, f1, s1⟩ := h1
  obtain ⟨m2, n2, f2, s2⟩ := h2
  refine ⟨fun q hq => m2 q (m1 q hq), ?_, ?_, ?_⟩
  · rw [mkcolPaths_append]
    refine List.Nodup.append n1 n2 ?_
    intro q hq1 hq2
    rcases s1 q hq1 with ⟨_, hmem⟩ | ⟨_, habs⟩
    · exact f2 q hq2 hmem
    · exact Option.noConfusion habs
  · intro q hq
    rw [mkcolPaths_append, List.mem_append] at hq
    rcases hq with hq | hq
    · exact f1 q hq
    · intro hc1
      exact f2 q hq (m1 q hc1)
  · intro q hq
    rw [mkcolPaths_append, List.mem_append] at hq
    rcases hq with hq | hq
    · rcases s1 q hq with ⟨hgood, hmem⟩ | ⟨_, habs⟩
      · exact Or.inl ⟨hgood, m2 q hmem⟩
      · exact Option.noConfusion habs
    · exact s2 q hq

lemma davInv_put {env : DavEnv} {created : List String} {evs : List DavReq}
    {cr : List String} (h : DavInv env created (evs, cr, none))
    (p : String) (c : Bytes) (er' : Option DavError) :
    DavInv env created (evs ++ [DavReq.put p c], cr, er') := by
  obtain ⟨m, n, f, s⟩ := h
  refine ⟨m, by simpa using n, by simpa using f, ?_⟩
  intro q hq
  rw [mkcolPaths_append] at hq
  simp only [mkcolPaths_cons_put, mkcolPaths_nil, List.append_nil] at hq
  rcases s q hq with ⟨hgood, hmem⟩ | ⟨_, habs⟩
  · exact Or.inl ⟨hgood, hmem⟩
  · exact Option.noConfusion habs

lemma ensureDirLoop_inv (env : DavEnv) :
    ∀ (parts created : List String) (cur : String),
      DavInv env created (ensureDirLoop env created parts cur) := by
  intro parts
  induction parts with
  | nil =>
    intro created cur
    exact davInv_trivial env created
  | cons part rest ih =>
    intro created cur
    simp only [ensureDirLoop]
    by_cases hmem : (cur ++ part ++ "/") ∈ created
    · rw [if_pos hmem]
      exact ih created (cur ++ part ++ "/")
    · rw [if_neg hmem]
      by_cases hst : env.mkcolStatus (cur ++ part ++ "/") = 201 ∨
          env.mkcolStatus (cur ++ part ++ "/") = 405
      · rw [if_pos hst]
        obtain ⟨m, n, f, s⟩ := ih ((cur ++ part ++ "/") :: created)
          (cur ++ part ++ "/")
        refine ⟨?_, ?_, ?_, ?_⟩
        · intro q hq
          exact m q (List.mem_cons_of_mem _ hq)
        · rw [mkcolPaths_cons_mkcol]
          refine List.nodup_cons.mpr ⟨?_, n⟩
          intro habs
          exact f _ habs (List.mem_cons_self _ _)
        · intro q hq
          rw [mkcolPaths_cons_mkcol, List.mem_cons] at hq
          rcases hq with rfl | hq
          · exact hmem
          · intro hc
            exact f q hq (List.mem_cons_of_mem _ hc)
        · intro q hq
          rw [mkcolPaths_cons_mkcol, List.mem_cons] at hq
          rcases hq with rfl | hq
          · exact Or.inl ⟨hst, m _ (List.mem_cons_self _ _)⟩
          · exact s q hq
      · rw [if_neg hst]
        refine ⟨fun q hq => hq, by simp, ?_, ?_⟩
        · intro q hq
          rw [mkcolPaths_cons_mkcol] at hq
          simp only [mkcolPaths_nil] at hq
          rcases List.mem_singleton.mp hq with rfl
          exact hmem
        · intro q hq
          rw [mkcolPaths_cons_mkcol] at hq
          simp only [mkcolPaths_nil] at hq
          rcases List.mem_singleton.mp hq with rfl
          exact Or.inr ⟨hst, rfl⟩

lemma ensureDirectoryExists_inv (env : DavEnv) (created : List String)
    (dirPath : String) :
    DavInv env created (ensureDirectoryExists env created dirPath) := by
  unfold ensureDirectoryExists
  by_cases hmem : dirPath ∈ created
  · rw [if_pos hmem]
    exact davInv_trivial env created
  · rw [if_neg hmem]
    exact ensureDirLoop_inv env _ created ""

lemma upload_inv (env : DavEnv) (created : List String) (p : String)
    (c : Bytes) : DavInv env created (upload env created p c) := by
  have hens : DavInv env created
      (if dirnameOf p ≠ "" then ensureDirectoryExists env created (dirnameOf p)
       else ([], created, none)) := by
    by_cases hd : dirnameOf p ≠ ""
    · rw [if_pos hd]
      exact ensureDirectoryExists_inv env created _
    · rw [if_neg hd]
      exact davInv_trivial env created
  simp only [upload]
  rcases he : (if dirnameOf p ≠ "" then
      ensureDirectoryExists env created (dirnameOf p)
    else ([], created, none)).2.2 with _ | e
  · have h' : DavInv env created
        ((if dirnameOf p ≠ "" then
            ensureDirectoryExists env created (dirnameOf p)
          else ([], created, none)).1,
         (if dirnameOf p ≠ "" then
            ensureDirectoryExists env created (dirnameOf p)
          else ([], created, none)).2.1, none) := by
      have hX : (if dirnameOf p ≠ "" then
            ensureDirectoryExists env created (dirnameOf p)
          else ([], created, none)) =
          ((if dirnameOf p ≠ "" then
              ensureDirectoryExists env created (dirnameOf p)
            else ([], created, none)).1,
           (if dirnameOf p ≠ "" then
              ensureDirectoryExists env created (dirnameOf p)
            else ([], created, none)).2.1, none) :=
        Prod.ext rfl (Prod.ext rfl he)
      rw [← hX]
      exact hens
    exact davInv_put h' p c _
  · have h' : DavInv env created
        ((if dirnameOf p ≠ "" then
            ensureDirectoryExists env created (dirnameOf p)
          else ([], created, none)).1,
         (if dirnameOf p ≠ "" then
            ensureDirectoryExists env created (dirnameOf p)
          else ([], created, none)).2.1, some e) := by
      have hX : (if dirnameOf p ≠ "" then
            ensureDirectoryExists env created (dirnameOf p)
          else ([], created, none)) =
          ((if dirnameOf p ≠ "" then
              ensureDirectoryExists env created (dirnameOf p)
            else ([], created, none)).1,
           (if dirnameOf p ≠ "" then
              ensureDirectoryExists env created (dirnameOf p)
            else ([], created, none)).2.1, some e) :=
        Prod.ext rfl (Prod.ext rfl he)
      rw [← hX]
      exact hens
    exact h'

lemma runUploads_inv (env : DavEnv) :
    ∀ (jobs : List (String × Bytes)) (created : List String),
      DavInv env created (runUploads env created jobs) := by
  intro jobs
  induction jobs with
  | nil =>
    intro created
    exact davInv_trivial env created
  | cons job rest ih =>
    intro created
    obtain ⟨p, c⟩ := job
    simp only [runUploads]
    rcases he : (upload env created p c).2.2 with _ | e
    · have h1 : DavInv env created
          ((upload env created p c).1, (upload env created p c).2.1, none) := by
        have hX : upload env created p c =
            ((upload env created p c).1, (upload env created p c).2.1, none) :=
          Prod.ext rfl (Prod.ext rfl he)
        rw [← hX]
        exact upload_inv env created p c
      exact davInv_append h1 (ih (upload env created p c).2.1)
    · have h1 : DavInv env created
          ((upload env created p c).1, (upload env created p c).2.1, some e) := by
        have hX : upload env created p c =
            ((upload env created p c).1, (upload env created p c).2.1, some e) :=
          Prod.ext rfl (Prod.ext rfl he)
        rw [← hX]
        exact upload_inv env created p c
      exact h1

/-- Every request issued by the directory-creation loop is a `MKCOL` for an
ancestor prefix, and on success every ancestor prefix ends up in the memo
set. -/
lemma ensureDirLoop_shape (env : DavEnv) :
    ∀ (parts created : List String) (cur : String),
      (∀ e ∈ (ensureDirLoop env created parts cur).1,
        ∃ q, e = DavReq.mkcol q ∧ q ∈ prefixesFrom cur parts) ∧
      ((ensureDirLoop env created parts cur).2.2 = none →
        ∀ q ∈ prefixesFrom cur parts,
          q ∈ (ensureDirLoop env created parts cur).2.1) := by
  intro parts
  induction parts with
  | nil =>
    intro created cur
    exact ⟨by simp [ensureDirLoop], by simp [prefixesFrom]⟩
  | cons part rest ih =>
    intro created cur
    simp only [ensureDirLoop, prefixesFrom]
    by_cases hmem : (cur ++ part ++ "/") ∈ created
    · rw [if_pos hmem]
      obtain ⟨sh, sc⟩ := ih created (cur ++ part ++ "/")
      constructor
      · intro e he
        obtain ⟨q, hq1, hq2⟩ := sh e he
        exact ⟨q, hq1, List.mem_cons_of_mem _ hq2⟩
      · intro hnone q hq
        rcases List.mem_cons.mp hq with rfl | hq
        · exact (ensureDirLoop_inv env rest created (cur ++ part ++ "/")).1 _ hmem
        · exact sc hnone q hq
    · rw [if_neg hmem]
      by_cases hst : env.mkcolStatus (cur ++ part ++ "/") = 201 ∨
          env.mkcolStatus (cur ++ part ++ "/") = 405
      · rw [if_pos hst]
        obtain ⟨sh, sc⟩ := ih ((cur ++ part ++ "/") :: created) (cur ++ part ++ "/")
        constructor
        · intro e he
          rcases List.mem_cons.mp he with rfl | he
          · exact ⟨cur ++ part ++ "/", rfl, List.mem_cons_self _ _⟩
          · obtain ⟨q, hq1, hq2⟩ := sh e he
            exact ⟨q, hq1, List.mem_cons_of_mem _ hq2⟩
        · intro hnone q hq
          rcases List.mem_cons.mp hq with rfl | hq
          · exact (ensureDirLoop_inv env rest ((cur ++ part ++ "/") :: created)
              (cur ++ part ++ "/")).1 _ (List.mem_cons_self _ _)
          · exact sc hnone q hq
      · rw [if_neg hst]
        constructor
        · intro e he
          rcases List.mem_singleton.mp he with rfl
          exact ⟨cur ++ part ++ "/", rfl, List.mem_cons_self _ _⟩
        · intro hnone
          exact absurd hnone (by simp)

/-- A successful `upload` issues only ancestor-prefix `MKCOL`s, then the
`PUT`, and afterwards every ancestor prefix of the target's directory is in
the memo set. -/
lemma upload_shape (env : DavEnv) (created : List String) (p : String)
    (c : Bytes)
    (hcr : ∀ q ∈ created, q.endsWith "/" = true)
    (hp : (dirnameOf p).endsWith "/" = false)
    (hup : (upload env created p c).2.2 = none) :
    (∃ ds, (upload env created p c).1 = ds ++ [DavReq.put p c] ∧
      ∀ e ∈ ds, ∃ q, e = DavReq.mkcol q ∧
        q ∈ ancestorPrefixes (dirnameOf p)) ∧
    (∀ q ∈ ancestorPrefixes (dirnameOf p), q ∈ (upload env created p c).2.1) := by
  rcases he : (if dirnameOf p ≠ "" then
      ensureDirectoryExists env created (dirnameOf p)
    else ([], created, none)).2.2 with _ | e
  · have h1 : (upload env created p c).1 =
        (if dirnameOf p ≠ "" then
          ensureDirectoryExists env created (dirnameOf p)
        else ([], created, none)).1 ++ [DavReq.put p c] := by
      simp only [upload]
      rw [he]
    have h2 : (upload env created p c).2.1 =
        (if dirnameOf p ≠ "" then
          ensureDirectoryExists env created (dirnameOf p)
        else ([], created, none)).2.1 := by
      simp only [upload]
      rw [he]
    by_cases hd : dirnameOf p ≠ ""
    · rw [if_pos hd] at h1 h2 he
      have hnotmem : dirnameOf p ∉ created := by
        intro hmem
        have := hcr _ hmem
        rw [this] at hp
        exact Bool.noConfusion hp
      have hens_eq : ensureDirectoryExists env created (dirnameOf p) =
          ensureDirLoop env created
            ((splitSegments (dirnameOf p)).filter (fun q => q.length > 0)) "" := by
        unfold ensureDirectoryExists
        rw [if_neg hnotmem]
      obtain ⟨sh, sc⟩ := ensureDirLoop_shape env
        ((splitSegments (dirnameOf p)).filter (fun q => q.length > 0)) created ""
      constructor
      · refine ⟨(ensureDirectoryExists env created (dirnameOf p)).1, h1, ?_⟩
        intro e he'
        rw [hens_eq] at he'
        obtain ⟨q, hq1, hq2⟩ := sh e he'
        exact ⟨q, hq1, hq2⟩
      · intro q hq
        rw [h2, hens_eq]
        rw [hens_eq] at he
        exact sc he q hq
    · have hd' : dirnameOf p = "" := not_not.mp hd
      rw [if_neg hd] at h1 h2
      have hpre : ancestorPrefixes (dirnameOf p) = [] := by
        rw [hd']
        rfl
      refine ⟨⟨[], by simpa using h1, by simp⟩, ?_⟩
      intro q hq
      rw [hpre] at hq
      cases hq
  · exfalso
    have : (upload env created p c).2.2 = some e := by
      simp only [upload]
      rw [he]
    rw [this] at hup
    exact Option.noConfusion hup

end WebDAV

/-- C9: through one remote-depot instance, every upload first ensures each
ancestor directory prefix of its target path via `MKCOL` requests — `201`
(created) and `405` (already exists) both counting as success, any other
status aborting the run with that failure — after which every prefix is
memoized in the instance's set; across any sequence of uploads each prefix's
creation request is issued at most once (the trace's `MKCOL` paths are
duplicate-free and never include an already-memoized prefix). -/
theorem webdav_mkcol_idempotent_memoized (env : WebDAV.DavEnv)
    (c0 : List String) (jobs : List (String × Bytes)) :
    (WebDAV.mkcolPaths (WebDAV.runUploads env c0 jobs).1).Nodup ∧
    (∀ q ∈ WebDAV.mkcolPaths (WebDAV.runUploads env c0 jobs).1, q ∉ c0) ∧
    (∀ q ∈ WebDAV.mkcolPaths (WebDAV.runUploads env c0 jobs).1,
      ((env.mkcolStatus q = 201 ∨ env.mkcolStatus q = 405) ∧
        q ∈ (WebDAV.runUploads env c0 jobs).2.1) ∨
      (¬(env.mkcolStatus q = 201 ∨ env.mkcolStatus q = 405) ∧
        (WebDAV.runUploads env c0 jobs).2.2 =
          some (WebDAV.DavError.mkcolFailed (env.mkcolStatus q)))) ∧
    (∀ (created : List String) (p : String) (c : Bytes),
      (∀ q ∈ created, q.endsWith "/" = true) →
      (WebDAV.dirnameOf p).endsWith "/" = false →
      (WebDAV.upload env created p c).2.2 = none →
      (∃ ds, (WebDAV.upload env created p c).1 =
          ds ++ [WebDAV.DavReq.put p c] ∧
        ∀ e ∈ ds, ∃ q, e = WebDAV.DavReq.mkcol q ∧
          q ∈ WebDAV.ancestorPrefixes (WebDAV.dirnameOf p)) ∧
      (∀ q ∈ WebDAV.ancestorPrefixes (WebDAV.dirnameOf p),
        q ∈ (WebDAV.upload env created p c).2.1)) := by
  obtain ⟨m, n, f, s⟩ := WebDAV.runUploads_inv env jobs c0
  exact ⟨n, f, s,
    fun created p c hcr hp hup => WebDAV.upload_shape env created p c hcr hp hup⟩

/-- Witness for `webdav_mkcol_idempotent_memoized`: a server answering 201 to
every `MKCOL` and 204 to every `PUT`, a fresh instance, and two uploads into
the same new directory. -/
theorem webdav_mkcol_idempotent_memoized_witness :
    (WebDAV.mkcolPaths (WebDAV.runUploads
        (WebDAV.DavEnv.mk (fun _ => 201) (fun _ => 204)) []
        [("a/b/x.json", [1]), ("a/b/y.json", [2])]).1).Nodup ∧
    (∀ q ∈ WebDAV.mkcolPaths (WebDAV.runUploads
        (WebDAV.DavEnv.mk (fun _ => 201) (fun _ => 204)) []
        [("a/b/x.json", [1]), ("a/b/y.json", [2])]).1, q ∉ ([] : List String)) ∧
    (∀ q ∈ WebDAV.mkcolPaths (WebDAV.runUploads
        (WebDAV.DavEnv.mk (fun _ => 201) (fun _ => 204)) []
        [("a/b/x.json", [1]), ("a/b/y.json", [2])]).1,
      (((WebDAV.DavEnv.mk (fun _ => 201) (fun _ => 204)).mkcolStatus q = 201 ∨
          (WebDAV.DavEnv.mk (fun _ => 201) (fun _ => 204)).mkcolStatus q = 405) ∧
        q ∈ (WebDAV.runUploads
          (WebDAV.DavEnv.mk (fun _ => 201) (fun _ => 204)) []
          [("a/b/x.json", [1]), ("a/b/y.json", [2])]).2.1) ∨
      (¬((WebDAV.DavEnv.mk (fun _ => 201) (fun _ => 204)).mkcolStatus q = 201 ∨
          (WebDAV.DavEnv.mk (fun _ => 201) (fun _ => 204)).mkcolStatus q = 405) ∧
        (WebDAV.runUploads
          (WebDAV.DavEnv.mk (fun _ => 201) (fun _ => 204)) []
          [("a/b/x.json", [1]), ("a/b/y.json", [2])]).2.2 =
          some (WebDAV.DavError.mkcolFailed
            ((WebDAV.DavEnv.mk (fun _ => 201) (fun _ => 204)).mkcolStatus q)))) ∧
    (∀ (created : List String) (p : String) (c : Bytes),
      (∀ q ∈ created, q.endsWith "/" = true) →
      (WebDAV.dirnameOf p).endsWith "/" = false →
      (WebDAV.upload (WebDAV.DavEnv.mk (fun _ => 201) (fun _ => 204))
        created p c).2.2 = none →
      (∃ ds, (WebDAV.upload (WebDAV.DavEnv.mk (fun _ => 201) (fun _ => 204))
          created p c).1 = ds ++ [WebDAV.DavReq.put p c] ∧
        ∀ e ∈ ds, ∃ q, e = WebDAV.DavReq.mkcol q ∧
          q ∈ WebDAV.ancestorPrefixes (WebDAV.dirnameOf p)) ∧
      (∀ q ∈ WebDAV.ancestorPrefixes (WebDAV.dirnameOf p),
        q ∈ (WebDAV.upload (WebDAV.DavEnv.mk (fun _ => 201) (fun _ => 204))
          created p c).2.1)) :=
  webdav_mkcol_idempotent_memoized
    (WebDAV.DavEnv.mk (fun _ => 201) (fun _ => 204)) []
    [("a/b/x.json", [1]), ("a/b/y.json", [2])]

end MetaDepot
